import Mathlib

/-!
# Verification of the U-Net training script (`train.py`)

This file shallowly embeds the control logic of `train.py` — dataset
splitting, loader batching, the composite loss selection, the periodic
validation cadence, the global step counter, checkpoint save/load, the
channel-count guard, the diagnostic-logging error handling and the
out-of-memory recovery wrapper — and proves the specified properties
about the embedding.

Numeric conventions: Python ints are `Nat`/`Int`; the `val_percent`
float is modelled by an exact rational (floating-point rounding is
abstracted away); tensors appear either symbolically (as expression
trees recording exactly which framework primitives the script applies)
or as lists of raw values where only bit-identity matters.
-/

set_option linter.unusedVariables false

namespace Spec2Proof

/-! ## Symbolic tensors and the composite loss (train.py lines 105, 146-165)

The autocast block computes `masks_pred = model(images)` and then branches
on `model.module.n_classes == 1`.  The tensor expressions that feed the two
loss terms are recorded symbolically, so that the theorem can state exactly
which activation is applied to which argument of which loss primitive. -/

/-- Symbolic tensor expressions occurring in the loss computation. -/
inductive TExpr : Type where
  /-- `masks_pred = model(images)`: the raw logits. -/
  | pred : TExpr
  /-- `true_masks` (integer labels, after `.to(dtype=torch.long)`). -/
  | trueMasks : TExpr
  /-- `true_masks.float()`. -/
  | trueMasksFloat : TExpr
  /-- `t.squeeze(1)`: drop the singleton channel dimension. -/
  | squeeze1 (t : TExpr) : TExpr
  /-- `F.sigmoid(t)`. -/
  | sigmoid (t : TExpr) : TExpr
  /-- `F.softmax(t, dim=1).float()`. -/
  | softmaxDim1 (t : TExpr) : TExpr
  /-- `F.one_hot(t, numClasses).permute(0, 3, 1, 2).float()`. -/
  | oneHotPermutedFloat (t : TExpr) (numClasses : Nat) : TExpr
  deriving DecidableEq

/-- Symbolic loss values built by the training step. -/
inductive LossTerm : Type where
  /-- `nn.BCEWithLogitsLoss()(input, target)`: binary cross-entropy fused
  with the sigmoid, applied to raw logits. -/
  | bceWithLogits (input target : TExpr) : LossTerm
  /-- `nn.CrossEntropyLoss()(input, target)`: categorical cross-entropy on
  raw logits. -/
  | crossEntropy (input target : TExpr) : LossTerm
  /-- `dice_loss(input, target, multiclass)` from `utils.dice_score`. -/
  | diceLoss (input target : TExpr) (multiclass : Bool) : LossTerm
  /-- `a + b` (the script writes `loss = a` then `loss += b`, with no
  weighting factor). -/
  | add (a b : LossTerm) : LossTerm
  deriving DecidableEq

/-- The two classification criteria the setup code can pick. -/
inductive Criterion : Type where
  | crossEntropyLoss : Criterion
  | bceWithLogitsLoss : Criterion
  deriving DecidableEq

/-- Line 105: `criterion = nn.CrossEntropyLoss() if model.module.n_classes > 1
else nn.BCEWithLogitsLoss()`. -/
def setupCriterion (nClasses : Nat) : Criterion :=
  if nClasses > 1 then .crossEntropyLoss else .bceWithLogitsLoss

/-- Calling the selected criterion object on `(input, target)`. -/
def applyCriterion : Criterion → TExpr → TExpr → LossTerm
  | .crossEntropyLoss, input, target => .crossEntropy input target
  | .bceWithLogitsLoss, input, target => .bceWithLogits input target

/-- Lines 150-165: the composite per-batch loss.  In the binary branch
(`model.module.n_classes == 1`) the criterion is applied to
`masks_pred.squeeze(1)` and `true_masks.float()` and the dice term to
`F.sigmoid(masks_pred.squeeze(1))`; otherwise the criterion is applied to
the raw logits and the dice term to `F.softmax(masks_pred, dim=1)` against
the one-hot encoded labels. -/
def batchLoss (nClasses : Nat) : LossTerm :=
  let criterion := setupCriterion nClasses
  if nClasses == 1 then
    .add (applyCriterion criterion (.squeeze1 .pred) .trueMasksFloat)
      (.diceLoss (.sigmoid (.squeeze1 .pred)) .trueMasksFloat false)
  else
    .add (applyCriterion criterion .pred .trueMasks)
      (.diceLoss (.softmaxDim1 .pred) (.oneHotPermutedFloat .trueMasks nClasses) true)

/-! ## The out-of-memory recovery wrapper (train.py lines 325-355) -/

/-- A Python exception, classified the way the wrapper can observe it:
either a `RuntimeError` carrying a message, or an exception of any other
class. -/
inductive PyExc : Type where
  | runtimeError (msg : String) : PyExc
  | otherClass (className : String) : PyExc
  deriving DecidableEq

/-- The outcome of one invocation of `train_model`. -/
inductive RunOutcome : Type where
  | ok : RunOutcome
  | raises (e : PyExc) : RunOutcome
  deriving DecidableEq

/-- Python `needle in hay` on strings: some contiguous slice of `hay`
equals `needle`. -/
def pyStrIn (needle hay : String) : Bool :=
  (List.range (hay.toList.length + 1)).any
    (fun i => (hay.toList.drop i).take needle.toList.length == needle.toList)

/-- Observable effects of the `__main__` try/except wrapper. -/
structure WrapperTrace : Type where
  /-- `logging.error("Detected OutOfMemoryError! ... Consider enabling AMP ...")` ran. -/
  loggedOomWarning : Bool
  /-- `torch.cuda.empty_cache()` ran. -/
  emptiedCudaCache : Bool
  /-- `model.use_checkpointing()` ran. -/
  enabledCheckpointing : Bool
  /-- `train_model` was invoked a second time. -/
  ranRetry : Bool
  /-- The exception, if any, that escapes uncaught. -/
  uncaught : Option PyExc
  deriving DecidableEq

/-- Lines 325-355: `try: train_model(...) except RuntimeError as e:
if "out of memory" in str(e): <warn, empty_cache, use_checkpointing,
train_model(...)>`.  Note the `if` has no `else` and the handler never
re-raises, so a `RuntimeError` whose message lacks the marker is caught
and the handler body is skipped. -/
def recoveryWrapper (firstRun retryRun : RunOutcome) : WrapperTrace :=
  match firstRun with
  | .ok => ⟨false, false, false, false, none⟩
  | .raises (.runtimeError msg) =>
      if pyStrIn "out of memory" msg then
        match retryRun with
        | .ok => ⟨true, true, true, true, none⟩
        | .raises e2 => ⟨true, true, true, true, some e2⟩
      else
        ⟨false, false, false, false, none⟩
  | .raises (.otherClass nm) =>
      ⟨false, false, false, false, some (.otherClass nm)⟩

/-! ## Dataset split (train.py lines 50-54) -/

/-- Python `int()` applied to a (here: exact rational) float: truncation
toward zero. -/
def pyIntOfRat (q : ℚ) : ℤ :=
  if 0 ≤ q then ⌊q⌋ else -⌊-q⌋

/-- Line 50: `n_val = int(len(dataset) * val_percent)`. -/
def nValOf (datasetLen : Nat) (valPercent : ℚ) : Nat :=
  (pyIntOfRat ((datasetLen : ℚ) * valPercent)).toNat

/-- Line 51: `n_train = len(dataset) - n_val`. -/
def nTrainOf (datasetLen : Nat) (valPercent : ℚ) : Nat :=
  datasetLen - nValOf datasetLen valPercent

/-- `torch.utils.data.random_split(dataset, [n_train, n_val], generator)`:
a permutation `indices` of the dataset index range is generated from the
generator, the first subset takes the first `n_train` entries and the
second subset the next `n_val` entries. -/
def randomSplit (indices : List Nat) (nTrain nVal : Nat) : List Nat × List Nat :=
  (indices.take nTrain, (indices.drop nTrain).take nVal)

/-- A torch random generator; `torch.Generator().manual_seed(s)` yields a
fresh generator in the state determined by `s` alone. -/
structure TorchGenerator : Type where
  seed : Nat
  deriving DecidableEq

/-- `torch.Generator().manual_seed(s)`. -/
def manualSeed (s : Nat) : TorchGenerator := ⟨s⟩

/-- Lines 50-54 as one operation.  `randperm` abstracts the (external,
deterministic) permutation generator `torch.randperm`; `ambientRngState`
models whatever global RNG state differs between two runs of the script —
the code never consults it here, because the split is driven by the fresh
generator `torch.Generator().manual_seed(0)`. -/
def trainValSplit (randperm : TorchGenerator → Nat → List Nat)
    (ambientRngState : Nat) (datasetLen : Nat) (valPercent : ℚ) :
    List Nat × List Nat :=
  randomSplit (randperm (manualSeed 0) datasetLen)
    (nTrainOf datasetLen valPercent) (nValOf datasetLen valPercent)

/-! ## Loader batching (train.py lines 61-62) -/

variable {α : Type}

/-- Batching a sample sequence into consecutive groups of `batchSize`
(the last group may be shorter), as the torch `DataLoader` sampler does. -/
def toBatches (batchSize : Nat) : List α → List (List α)
  | [] => []
  | x :: xs =>
    (x :: xs.take (batchSize - 1)) :: toBatches batchSize (xs.drop (batchSize - 1))
  termination_by l => l.length
  decreasing_by simp; omega

/-- `drop_last=True`: remove the final batch when it is smaller than
`batchSize`. -/
def dropLastPartial (batchSize : Nat) : List (List α) → List (List α)
  | [] => []
  | [c] => if c.length == batchSize then [c] else []
  | c :: c' :: rest => c :: dropLastPartial batchSize (c' :: rest)

/-- Line 61: `train_loader = DataLoader(train_set, shuffle=True, **loader_args)`
(default `drop_last=False`); `shuffled` is the epoch's shuffled sample order. -/
def trainLoaderBatches (batchSize : Nat) (shuffled : List α) : List (List α) :=
  toBatches batchSize shuffled

/-- Line 62: `val_loader = DataLoader(val_set, shuffle=False, drop_last=True,
**loader_args)`. -/
def valLoaderBatches (batchSize : Nat) (valSet : List α) : List (List α) :=
  dropLastPartial batchSize (toBatches batchSize valSet)

/-! ## Validation cadence (train.py lines 182-184) -/

/-- Line 182: `division_step = n_train // (200 * batch_size)`. -/
def divisionStep (nTrain batchSize : Nat) : Nat :=
  nTrain / (200 * batchSize)

/-- Lines 183-184: `if division_step > 0: if global_step % division_step == 0:`. -/
def evaluationRoundTriggered (nTrain batchSize globalStep : Nat) : Bool :=
  let d := divisionStep nTrain batchSize
  if d > 0 then
    if globalStep % d == 0 then true else false
  else
    false

/-! ## The global step counter (train.py lines 106, 109, 122, 174, 182-184)

`global_step = 0` is initialised once before the epoch loop; every batch
increments it by one and then evaluates the periodic-validation condition
on its current value.  The loop below threads the counter through batches
and epochs and records, per batch, the counter value at the trigger check
together with the trigger decision taken on it. -/

/-- The inner `for batch in train_loader` loop, processing `n` batches
from counter value `globalStep`: returns the final counter and the list of
`(global_step, trigger decision)` pairs in order. -/
def batchIter (nTrain batchSize : Nat) (globalStep : Nat) :
    Nat → Nat × List (Nat × Bool)
  | 0 => (globalStep, [])
  | n + 1 =>
    let s := globalStep + 1
    let (finalStep, rest) := batchIter nTrain batchSize s n
    (finalStep, (s, evaluationRoundTriggered nTrain batchSize s) :: rest)

/-- The outer `for epoch in range(1, epochs + 1)` loop: each epoch runs
`batchesPerEpoch` batches, and the counter is threaded through unchanged
across epoch boundaries (it is never reset). -/
def epochIter (nTrain batchSize batchesPerEpoch : Nat) (globalStep : Nat) :
    Nat → Nat × List (Nat × Bool)
  | 0 => (globalStep, [])
  | e + 1 =>
    let (s1, l1) := batchIter nTrain batchSize globalStep batchesPerEpoch
    let (s2, l2) := epochIter nTrain batchSize batchesPerEpoch s1 e
    (s2, l1 ++ l2)

/-- A whole training run: `global_step = 0` (line 106), then the epoch loop. -/
def trainingRunLog (nTrain batchSize epochs batchesPerEpoch : Nat) :
    Nat × List (Nat × Bool) :=
  epochIter nTrain batchSize batchesPerEpoch 0 epochs

/-! ## Checkpoint save and load (train.py lines 225-231 and 313-317) -/

/-- Raw parameter contents; only bit-identity matters here. -/
abbrev Tensor := List Int

/-- A `state_dict`: an insertion-ordered mapping from names to tensors. -/
abbrev StateDict := List (String × Tensor)

/-- Python `d[k] = v`: overwrite in place if the key is present, else
append a new entry. -/
def dictSetItem (d : StateDict) (k : String) (v : Tensor) : StateDict :=
  if d.any (fun p => p.1 == k) then
    d.map (fun p => if p.1 == k then (k, v) else p)
  else
    d ++ [(k, v)]

/-- Python `del d[k]`: remove the entry with key `k`. -/
def dictDelItem (d : StateDict) (k : String) : StateDict :=
  d.filter (fun p => p.1 != k)

/-- The reserved auxiliary key the checkpoint writer adds. -/
def maskValuesKey : String := "mask_values"

/-- Lines 227-230: `state_dict = model.state_dict();
state_dict["mask_values"] = dataset.mask_values; torch.save(state_dict, ...)`. -/
def saveCheckpoint (modelStateDict : StateDict) (maskValues : Tensor) : StateDict :=
  dictSetItem modelStateDict maskValuesKey maskValues

/-- Lines 314-316: `state_dict = torch.load(...); del state_dict["mask_values"];
model.load_state_dict(state_dict)` — with strict loading the model's
parameters afterwards are exactly the loaded dictionary. -/
def loadCheckpoint (checkpoint : StateDict) : StateDict :=
  dictDelItem checkpoint maskValuesKey

/-! ## The channel-count guard (train.py lines 127-149) -/

/-- The externally visible milestones of one batch iteration. -/
inductive BatchEvent : Type where
  /-- The `assert images.shape[1] == model.module.n_channels` guard failed
  (line 127): the iteration aborts fatally. -/
  | channelAssertFailed : BatchEvent
  /-- `images`/`true_masks` moved to the device (lines 133-144). -/
  | movedToDevice : BatchEvent
  /-- `masks_pred = model(images)` (line 149): the forward pass. -/
  | forwardPass : BatchEvent
  /-- The composite loss was computed (lines 150-165). -/
  | lossComputed : BatchEvent
  /-- `backward`, gradient clipping and the optimizer step (lines 167-171). -/
  | backwardAndStep : BatchEvent
  deriving DecidableEq

/-- Lines 127-171: the guard runs first; on mismatch the iteration dies
before anything else, on match the remaining statements run unchanged. -/
def processBatchEvents (imageChannels modelChannels : Nat) : List BatchEvent :=
  if imageChannels == modelChannels then
    [.movedToDevice, .forwardPass, .lossComputed, .backwardAndStep]
  else
    [.channelAssertFailed]

/-- The same batch iteration with the assert deleted. -/
def processBatchEventsNoGuard : List BatchEvent :=
  [.movedToDevice, .forwardPass, .lossComputed, .backwardAndStep]

/-! ## Diagnostic emission during a validation round (train.py lines 185-223)

The histogram records are built (lines 185-197) *outside* any handler;
the `experiment.log(...)` call carrying the learning rate, the validation
score, the sample image/true-mask/predicted-mask records and the
histograms (lines 204-221) is wrapped in `try: ... except: pass`. -/

/-- Result of executing a Python statement sequence: normal completion or
an escaped exception (named after the operation that raised it). -/
inductive PyResult : Type where
  | ok : PyResult
  | exc (source : String) : PyResult
  deriving DecidableEq

/-- Sequencing: a raised exception skips the rest of the suite. -/
def pySeq (a : PyResult) (b : Unit → PyResult) : PyResult :=
  match a with
  | .ok => b ()
  | .exc e => .exc e

/-- `try: body except: pass` — whatever `body` raises is discarded. -/
def tryExceptPass (body : PyResult) : PyResult :=
  match body with
  | .ok => .ok
  | .exc _ => .ok

/-- A statement that raises iff `raises` holds. -/
def pyStmt (raises : Bool) (source : String) : PyResult :=
  if raises then .exc source else .ok

/-- Which diagnostic-emission operations raise in a given round. -/
structure DiagnosticFaults : Type where
  /-- A `wandb.Histogram(...)` construction (lines 189, 195) raises. -/
  histogramBuildRaises : Bool
  /-- The `experiment.log({... images, masks, histograms ...})` call
  (lines 204-221), including its `wandb.Image(...)` arguments, raises. -/
  wandbLogRaises : Bool
  deriving DecidableEq

/-- Lines 185-223 of the evaluation round: build histograms (unprotected),
then emit the extended record under `try/except pass`. -/
def diagnosticEmission (f : DiagnosticFaults) : PyResult :=
  pySeq (pyStmt f.histogramBuildRaises "wandb.Histogram")
    (fun _ => tryExceptPass (pyStmt f.wandbLogRaises "experiment.log"))

/-! ## Theorems -/

/-- C1: For every training batch, the loss is the unweighted sum of a
classification term on raw logits and a dice term on normalized
probabilities: with `n_classes = 1`, binary cross-entropy-with-logits on the
squeezed single-channel output plus binary dice on its sigmoid; with
`n_classes > 1`, categorical cross-entropy on the logits plus multiclass
dice comparing the softmax of the logits against the one-hot encoding of
the true masks. -/
theorem loss_composition (nClasses : Nat) :
    (nClasses = 1 →
      batchLoss nClasses =
        .add (.bceWithLogits (.squeeze1 .pred) .trueMasksFloat)
          (.diceLoss (.sigmoid (.squeeze1 .pred)) .trueMasksFloat false)) ∧
    (1 < nClasses →
      batchLoss nClasses =
        .add (.crossEntropy .pred .trueMasks)
          (.diceLoss (.softmaxDim1 .pred)
            (.oneHotPermutedFloat .trueMasks nClasses) true)) := by
  constructor
  · rintro rfl
    rfl
  · intro h
    have h1 : (nClasses == 1) = false := by
      simp only [beq_eq_false_iff_ne, ne_eq]
      omega
    simp [batchLoss, setupCriterion, applyCriterion, h1, h]

/-- Witness for `loss_composition` at `n_classes = 1` and `n_classes = 2`. -/
theorem loss_composition_witness :
    batchLoss 1 =
      .add (.bceWithLogits (.squeeze1 .pred) .trueMasksFloat)
        (.diceLoss (.sigmoid (.squeeze1 .pred)) .trueMasksFloat false) ∧
    batchLoss 2 =
      .add (.crossEntropy .pred .trueMasks)
        (.diceLoss (.softmaxDim1 .pred)
          (.oneHotPermutedFloat .trueMasks 2) true) :=
  ⟨(loss_composition 1).1 rfl, (loss_composition 2).2 (by omega)⟩

/-- C2: divergence between code and claim.  When the first `train_model`
invocation raises a `RuntimeError` whose message does not mention memory
exhaustion, the wrapper catches the exception and silently discards it —
no warning, no cache release, no checkpointing switch, no retry, and no
uncaught propagation — because the `if "out of memory" in str(e)` branch
has no `else: raise`.  The claim (and the spec) say such a failure
propagates uncaught. -/
theorem recovery_swallows_non_oom_runtime_error :
    recoveryWrapper
        (.raises (.runtimeError "mat1 and mat2 shapes cannot be multiplied"))
        .ok
      = ⟨false, false, false, false, none⟩ := by
  rfl

/-- C3: for every dataset and every `val_percent` in `[0, 1)`, the split
sizes satisfy `n_val = floor(len * val_percent)` and
`n_train = len - n_val`, hence `n_train + n_val = len`; and the two
subsets produced by `random_split` from a permutation of the index range
are disjoint and together exhaust the dataset. -/
theorem dataset_split_sizes (len : Nat) (vp : ℚ) (h0 : 0 ≤ vp) (h1 : vp < 1)
    (indices : List Nat) (hperm : indices.Perm (List.range len)) :
    ((nValOf len vp : ℤ) = ⌊(len : ℚ) * vp⌋) ∧
    nTrainOf len vp + nValOf len vp = len ∧
    (randomSplit indices (nTrainOf len vp) (nValOf len vp)).1.Disjoint
      (randomSplit indices (nTrainOf len vp) (nValOf len vp)).2 ∧
    ((randomSplit indices (nTrainOf len vp) (nValOf len vp)).1 ++
      (randomSplit indices (nTrainOf len vp) (nValOf len vp)).2).Perm
      (List.range len) := by
  have hq : (0 : ℚ) ≤ (len : ℚ) * vp := mul_nonneg (by positivity) h0
  have hfl0 : 0 ≤ ⌊(len : ℚ) * vp⌋ := Int.floor_nonneg.mpr hq
  have hle : (len : ℚ) * vp ≤ (len : ℚ) := by
    calc (len : ℚ) * vp ≤ (len : ℚ) * 1 :=
          mul_le_mul_of_nonneg_left (le_of_lt h1) (by positivity)
      _ = (len : ℚ) := mul_one _
  have hflle : ⌊(len : ℚ) * vp⌋ ≤ (len : ℤ) := by
    have h := Int.floor_le_floor hle
    rwa [Int.floor_natCast] at h
  have hval : (nValOf len vp : ℤ) = ⌊(len : ℚ) * vp⌋ := by
    unfold nValOf pyIntOfRat
    rw [if_pos hq, Int.toNat_of_nonneg hfl0]
  have hvle : nValOf len vp ≤ len := by
    have h : (nValOf len vp : ℤ) ≤ (len : ℤ) := by rw [hval]; exact hflle
    exact_mod_cast h
  have hsum : nTrainOf len vp + nValOf len vp = len := by
    unfold nTrainOf
    omega
  have hlen : indices.length = len := by
    simpa using hperm.length_eq
  have hnodup : indices.Nodup := hperm.symm.nodup (List.nodup_range len)
  have hvaleq : (indices.drop (nTrainOf len vp)).take (nValOf len vp)
      = indices.drop (nTrainOf len vp) := by
    apply List.take_of_length_le
    simp [hlen]
    omega
  refine ⟨hval, hsum, ?_, ?_⟩
  · unfold randomSplit
    simp only
    rw [hvaleq]
    exact List.disjoint_take_drop hnodup le_rfl
  · unfold randomSplit
    simp only
    rw [hvaleq, List.take_append_drop]
    exact hperm

/-- Witness for `dataset_split_sizes`: a 10-sample dataset with
`val_percent = 3/10` and a concrete shuffled index list. -/
theorem dataset_split_sizes_witness :
    ((nValOf 10 (3/10) : ℤ) = ⌊(10 : ℚ) * (3/10)⌋) ∧
    nTrainOf 10 (3/10) + nValOf 10 (3/10) = 10 ∧
    (randomSplit [3, 1, 4, 0, 5, 9, 2, 6, 8, 7] (nTrainOf 10 (3/10))
        (nValOf 10 (3/10))).1.Disjoint
      (randomSplit [3, 1, 4, 0, 5, 9, 2, 6, 8, 7] (nTrainOf 10 (3/10))
        (nValOf 10 (3/10))).2 ∧
    ((randomSplit [3, 1, 4, 0, 5, 9, 2, 6, 8, 7] (nTrainOf 10 (3/10))
        (nValOf 10 (3/10))).1 ++
      (randomSplit [3, 1, 4, 0, 5, 9, 2, 6, 8, 7] (nTrainOf 10 (3/10))
        (nValOf 10 (3/10))).2).Perm (List.range 10) :=
  dataset_split_sizes 10 (3/10) (by norm_num) (by norm_num)
    [3, 1, 4, 0, 5, 9, 2, 6, 8, 7] (by decide)

/-- C4: the split is deterministic: for a fixed dataset (its index range)
and the fixed seed baked into the code, two runs — whatever their ambient
RNG states — produce identical train membership and identical validation
membership (set equality of sample indices, indeed list equality). -/
theorem split_determinism (randperm : TorchGenerator → Nat → List Nat)
    (run1State run2State : Nat) (datasetLen : Nat) (valPercent : ℚ) :
    (trainValSplit randperm run1State datasetLen valPercent).1.toFinset =
      (trainValSplit randperm run2State datasetLen valPercent).1.toFinset ∧
    (trainValSplit randperm run1State datasetLen valPercent).2.toFinset =
      (trainValSplit randperm run2State datasetLen valPercent).2.toFinset :=
  ⟨rfl, rfl⟩

/-- C5: the validation round runs exactly at training batches whose global
step is a positive multiple of `division_step = n_train / (200 * batch_size)`,
and never runs when that divisor is zero.  (At the check site the counter
has just been incremented, so `1 ≤ globalStep`.) -/
theorem validation_cadence (nTrain batchSize globalStep : Nat)
    (hstep : 1 ≤ globalStep) :
    (evaluationRoundTriggered nTrain batchSize globalStep = true ↔
      0 < divisionStep nTrain batchSize ∧
        ∃ k, 0 < k ∧ globalStep = k * divisionStep nTrain batchSize) ∧
    (divisionStep nTrain batchSize = 0 →
      evaluationRoundTriggered nTrain batchSize globalStep = false) := by
  have hbool : evaluationRoundTriggered nTrain batchSize globalStep = true ↔
      (0 < divisionStep nTrain batchSize ∧
        globalStep % divisionStep nTrain batchSize = 0) := by
    unfold evaluationRoundTriggered
    by_cases h : 0 < divisionStep nTrain batchSize
    · simp [h]
    · simp [h]
  constructor
  · rw [hbool]
    constructor
    · rintro ⟨hd, hmod⟩
      refine ⟨hd, ?_⟩
      obtain ⟨k, hk⟩ := Nat.dvd_of_mod_eq_zero hmod
      refine ⟨k, ?_, by rw [hk, Nat.mul_comm]⟩
      rcases Nat.eq_zero_or_pos k with rfl | hkpos
      · simp at hk
        omega
      · exact hkpos
    · rintro ⟨hd, k, hkpos, rfl⟩
      exact ⟨hd, Nat.mul_mod_left k _⟩
  · intro hzero
    rcases h : evaluationRoundTriggered nTrain batchSize globalStep with _ | _
    · rfl
    · exact absurd (hbool.mp h).1 (by omega)

/-- Witness for `validation_cadence`: `n_train = 1200`, `batch_size = 2`
gives `division_step = 3`, and the round triggers at step 3. -/
theorem validation_cadence_witness :
    (evaluationRoundTriggered 1200 2 3 = true ↔
      0 < divisionStep 1200 2 ∧ ∃ k, 0 < k ∧ 3 = k * divisionStep 1200 2) ∧
    (divisionStep 1200 2 = 0 → evaluationRoundTriggered 1200 2 3 = false) :=
  validation_cadence 1200 2 3 (by decide)

/-- C6: checkpoint round-trip.  Saving (adding the reserved `mask_values`
key to the parameter mapping) and then loading (deleting that key before
restoring) recovers every parameter bit-identically, provided — as the
word "reserved" demands — no parameter itself bears that key. -/
theorem checkpoint_roundtrip (m : StateDict) (mv : Tensor)
    (hres : ∀ p ∈ m, p.1 ≠ maskValuesKey) :
    loadCheckpoint (saveCheckpoint m mv) = m := by
  have hany : (m.any (fun p => p.1 == maskValuesKey)) = false := by
    rw [List.any_eq_false]
    intro p hp
    simpa using hres p hp
  unfold loadCheckpoint saveCheckpoint dictSetItem dictDelItem
  rw [hany]
  simp only [Bool.false_eq_true, if_false, List.filter_append]
  have hm : m.filter (fun p => p.1 != maskValuesKey) = m := by
    rw [List.filter_eq_self]
    intro p hp
    simpa using hres p hp
  rw [hm]
  simp

/-- Witness for `checkpoint_roundtrip` on a two-parameter state dict. -/
theorem checkpoint_roundtrip_witness :
    loadCheckpoint
        (saveCheckpoint [("inc.weight", [1, 2]), ("inc.bias", [3])] [0, 1])
      = [("inc.weight", [1, 2]), ("inc.bias", [3])] :=
  checkpoint_roundtrip [("inc.weight", [1, 2]), ("inc.bias", [3])] [0, 1]
    (by decide)

/-- C7: counterexample to the claim as stated.  A failure raised while
building a parameter/gradient histogram record occurs outside the
`try/except pass` region, so it escapes and aborts training instead of
being silently discarded. -/
theorem histogram_failure_propagates :
    diagnosticEmission ⟨true, false⟩ = .exc "wandb.Histogram" := by
  rfl

/-- C7 (amended): a failure raised by the `experiment.log` emission of the
extended diagnostic record — the call carrying the sample
image/true-mask/predicted-mask records and the histograms — is caught and
silently discarded and the round completes; but a failure raised while
*building* the histogram records is outside the protected region and
propagates. -/
theorem diagnostic_emission_handling (logRaises : Bool) :
    diagnosticEmission ⟨false, logRaises⟩ = .ok ∧
    diagnosticEmission ⟨true, logRaises⟩ = .exc "wandb.Histogram" := by
  cases logRaises <;> exact ⟨rfl, rfl⟩

/-- C8: the channel-count guard.  On a batch whose image channel count
differs from the model's declared input channel count the iteration fails
assertion-style before the forward pass; when the counts match the guard
has no effect (the iteration is identical to one with the assert deleted). -/
theorem channel_guard (imageChannels modelChannels : Nat) :
    (imageChannels ≠ modelChannels →
      processBatchEvents imageChannels modelChannels = [.channelAssertFailed] ∧
      BatchEvent.forwardPass ∉ processBatchEvents imageChannels modelChannels) ∧
    (imageChannels = modelChannels →
      processBatchEvents imageChannels modelChannels = processBatchEventsNoGuard) := by
  constructor
  · intro hne
    have h : (imageChannels == modelChannels) = false := by
      simpa using hne
    constructor
    · simp [processBatchEvents, h]
    · simp [processBatchEvents, h]
  · intro heq
    simp [processBatchEvents, heq, processBatchEventsNoGuard]

/-- Witness for `channel_guard`: a 1-channel batch against a 3-channel
model dies before the forward pass; a 3-channel batch runs unguarded. -/
theorem channel_guard_witness :
    (processBatchEvents 1 3 = [.channelAssertFailed] ∧
      BatchEvent.forwardPass ∉ processBatchEvents 1 3) ∧
    processBatchEvents 3 3 = processBatchEventsNoGuard :=
  ⟨(channel_guard 1 3).1 (by decide), (channel_guard 3 3).2 rfl⟩

/-! ### Batching lemmas for C9 -/

/-- Recursion principle following the structure of `toBatches`. -/
theorem toBatches_rec_aux (b : Nat) (motive : List α → Prop)
    (h0 : motive [])
    (h1 : ∀ x xs, motive (xs.drop (b - 1)) → motive (x :: xs)) :
    ∀ l, motive l := by
  have key : ∀ n (l : List α), l.length ≤ n → motive l := by
    intro n
    induction n with
    | zero =>
      intro l hl
      cases l with
      | nil => exact h0
      | cons x xs => simp at hl
    | succ n ih =>
      intro l hl
      cases l with
      | nil => exact h0
      | cons x xs =>
        apply h1
        apply ih
        simp only [List.length_drop]
        simp only [List.length_cons] at hl
        omega
  intro l
  exact key l.length l le_rfl

theorem toBatches_nil (b : Nat) : toBatches b ([] : List α) = [] := by
  simp [toBatches]

theorem toBatches_cons (b : Nat) (x : α) (xs : List α) :
    toBatches b (x :: xs) =
      (x :: xs.take (b - 1)) :: toBatches b (xs.drop (b - 1)) := by
  simp [toBatches]

/-- A head batch followed by at least one further batch is full. -/
theorem toBatches_head_length (b : Nat) (hb : 0 < b) (x : α) (xs : List α)
    (h : b - 1 ≤ xs.length) :
    (x :: xs.take (b - 1)).length = b := by
  simp only [List.length_cons, List.length_take]
  omega

/-- The batches concatenate back to the sample sequence: no sample is
dropped by the training loader. -/
theorem toBatches_flatten (b : Nat) (l : List α) :
    (toBatches b l).flatten = l := by
  refine toBatches_rec_aux b (fun l => (toBatches b l).flatten = l) ?_ ?_ l
  · simp [toBatches_nil]
  · intro x xs ih
    rw [toBatches_cons, List.flatten_cons, ih, List.cons_append,
      List.take_append_drop]

/-- Every batch except possibly the last is full. -/
theorem toBatches_dropLast_length (b : Nat) (hb : 0 < b) (l : List α) :
    ∀ c ∈ (toBatches b l).dropLast, c.length = b := by
  refine toBatches_rec_aux b
    (fun l => ∀ c ∈ (toBatches b l).dropLast, c.length = b) ?_ ?_ l
  · simp [toBatches_nil]
  · intro x xs ih c hc
    rw [toBatches_cons] at hc
    rcases hrest : toBatches b (xs.drop (b - 1)) with _ | ⟨r, rs⟩
    · rw [hrest] at hc
      simp at hc
    · rw [hrest, List.dropLast_cons₂] at hc
      have hne : xs.drop (b - 1) ≠ [] := by
        intro hnil
        rw [hnil, toBatches_nil] at hrest
        exact List.noConfusion hrest
      have hlen : b - 1 ≤ xs.length := by
        by_contra hlt
        exact hne (List.drop_eq_nil_of_le (by omega))
      rcases List.mem_cons.mp hc with rfl | hc
      · exact toBatches_head_length b hb x xs hlen
      · exact ih c (by rw [hrest]; exact hc)

/-- A non-full batch has exactly `l.length % b` samples. -/
theorem toBatches_partial_length (b : Nat) (hb : 0 < b) (l : List α) :
    ∀ c ∈ toBatches b l, c.length ≠ b → c.length = l.length % b := by
  refine toBatches_rec_aux b
    (fun l => ∀ c ∈ toBatches b l, c.length ≠ b → c.length = l.length % b) ?_ ?_ l
  · simp [toBatches_nil]
  · intro x xs ih c hc hne
    rw [toBatches_cons] at hc
    rcases List.mem_cons.mp hc with rfl | hc
    · have hlt : xs.length < b - 1 := by
        by_contra hge
        exact hne (toBatches_head_length b hb x xs (by omega))
      have hlen : (x :: xs.take (b - 1)).length = xs.length + 1 := by
        simp only [List.length_cons, List.length_take]
        omega
      rw [hlen, List.length_cons, Nat.mod_eq_of_lt (by omega)]
    · have hne' : xs.drop (b - 1) ≠ [] := by
        intro hnil
        rw [hnil, toBatches_nil] at hc
        simp at hc
      have hlen : b - 1 ≤ xs.length := by
        by_contra hlt
        exact hne' (List.drop_eq_nil_of_le (by omega))
      rw [ih c hc hne]
      simp only [List.length_drop, List.length_cons]
      have hsplit : xs.length + 1 = (xs.length - (b - 1)) + b := by omega
      rw [hsplit, Nat.add_mod_right]

/-- At most one batch of the sequence is partial. -/
theorem toBatches_countP_partial (b : Nat) (hb : 0 < b) (l : List α) :
    (toBatches b l).countP (fun c => c.length != b) ≤ 1 := by
  refine toBatches_rec_aux b
    (fun l => (toBatches b l).countP (fun c => c.length != b) ≤ 1) ?_ ?_ l
  · simp [toBatches_nil]
  · intro x xs ih
    rw [toBatches_cons]
    by_cases hnil : xs.drop (b - 1) = []
    · rw [hnil, toBatches_nil]
      exact le_trans (List.countP_le_length _) (by simp)
    · have hlen : b - 1 ≤ xs.length := by
        by_contra hlt
        exact hnil (List.drop_eq_nil_of_le (by omega))
      have hhead : ((x :: xs.take (b - 1)).length != b) = false := by
        simp [toBatches_head_length b hb x xs hlen]
      rw [List.countP_cons]
      simp only [hhead, Bool.false_eq_true, if_false, Nat.add_zero]
      exact ih

/-- If every non-final batch is full, every batch the `drop_last` loader
yields is full. -/
theorem dropLastPartial_lengths (b : Nat) :
    ∀ (bs : List (List α)), (∀ c ∈ bs.dropLast, c.length = b) →
      ∀ c ∈ dropLastPartial b bs, c.length = b := by
  intro bs
  induction bs with
  | nil =>
    intro _ c hc
    simp [dropLastPartial] at hc
  | cons c0 rest ih =>
    intro h c hc
    cases rest with
    | nil =>
      simp only [dropLastPartial] at hc
      by_cases hfull : c0.length = b
      · simp [hfull] at hc
        subst hc
        exact hfull
      · simp [hfull] at hc
    | cons c1 rest' =>
      simp only [dropLastPartial] at hc
      rcases List.mem_cons.mp hc with rfl | hc
      · exact h c (by rw [List.dropLast_cons₂]; exact List.mem_cons_self _ _)
      · refine ih ?_ c hc
        intro c' hc'
        exact h c' (by rw [List.dropLast_cons₂]; exact List.mem_cons_of_mem _ hc')

/-- C9: the validation loader never yields a partial batch, while the
training loader covers every training sample and yields at most one
partial batch, of size `len(train_set) % batch_size`. -/
theorem loader_batching (b : Nat) (hb : 0 < b)
    (valSet trainSet shuffled : List α) (hsh : shuffled.Perm trainSet) :
    (∀ c ∈ valLoaderBatches b valSet, c.length = b) ∧
    (trainLoaderBatches b shuffled).flatten.Perm trainSet ∧
    (trainLoaderBatches b shuffled).countP (fun c => c.length != b) ≤ 1 ∧
    (∀ c ∈ trainLoaderBatches b shuffled, c.length ≠ b →
      c.length = trainSet.length % b) := by
  refine ⟨?_, ?_, ?_, ?_⟩
  · intro c hc
    exact dropLastPartial_lengths b _ (toBatches_dropLast_length b hb valSet) c hc
  · rw [trainLoaderBatches, toBatches_flatten]
    exact hsh
  · exact toBatches_countP_partial b hb shuffled
  · intro c hc hne
    rw [← hsh.length_eq]
    exact toBatches_partial_length b hb shuffled c hc hne

/-- Witness for `loader_batching`: batch size 2, a 5-sample validation set
(both its batches are full pairs) and a 5-sample training set in shuffled
order (three batches, the last of size `5 % 2 = 1`). -/
theorem loader_batching_witness :
    (∀ c ∈ valLoaderBatches 2 ([0, 1, 2, 3, 4] : List Nat), c.length = 2) ∧
    (trainLoaderBatches 2 ([12, 10, 14, 11, 13] : List Nat)).flatten.Perm
      [10, 11, 12, 13, 14] ∧
    (trainLoaderBatches 2 ([12, 10, 14, 11, 13] : List Nat)).countP
      (fun c => c.length != 2) ≤ 1 ∧
    (∀ c ∈ trainLoaderBatches 2 ([12, 10, 14, 11, 13] : List Nat),
      c.length ≠ 2 → c.length = ([10, 11, 12, 13, 14] : List Nat).length % 2) :=
  loader_batching 2 (by decide) [0, 1, 2, 3, 4] [10, 11, 12, 13, 14]
    [12, 10, 14, 11, 13] (by decide)

/-! ### Step-counter lemmas for C10 -/

theorem batchIter_eq (nTrain bs gs n : Nat) :
    batchIter nTrain bs gs n =
      (gs + n, (List.range' (gs + 1) n).map
        (fun s => (s, evaluationRoundTriggered nTrain bs s))) := by
  induction n generalizing gs with
  | zero => simp [batchIter, List.range']
  | succ n ih =>
    simp only [batchIter, ih, List.range', List.map_cons]
    rw [Prod.mk.injEq]
    exact ⟨by omega, rfl⟩

theorem epochIter_eq (nTrain bs batchesPerEpoch gs e : Nat) :
    epochIter nTrain bs batchesPerEpoch gs e =
      (gs + e * batchesPerEpoch,
        (List.range' (gs + 1) (e * batchesPerEpoch)).map
          (fun s => (s, evaluationRoundTriggered nTrain bs s))) := by
  induction e generalizing gs with
  | zero => simp [epochIter, List.range']
  | succ e ih =>
    simp only [epochIter, batchIter_eq, ih]
    have hstart : gs + 1 + 1 * batchesPerEpoch = gs + batchesPerEpoch + 1 := by
      omega
    have happ := List.range'_append (gs + 1) batchesPerEpoch
      (e * batchesPerEpoch) 1
    rw [hstart] at happ
    rw [Prod.mk.injEq]
    constructor
    · rw [Nat.succ_mul]
      omega
    · rw [← List.map_append, happ, Nat.succ_mul, Nat.add_comm (e * batchesPerEpoch)]

/-- C10: the global step counter starts at 0, is incremented by exactly 1
per training batch, and is never reset at epoch boundaries: across a run
of `epochs` epochs of `batchesPerEpoch` batches each, the trigger check is
evaluated at the run-wide counter values `1, 2, ..., epochs * batchesPerEpoch`
(so the counter always equals the cumulative number of batches processed),
and each periodic-validation decision is exactly the trigger predicate
applied to that run-wide value. -/
theorem global_step_counter (nTrain batchSize epochs batchesPerEpoch : Nat) :
    (trainingRunLog nTrain batchSize epochs batchesPerEpoch).1 =
      epochs * batchesPerEpoch ∧
    (trainingRunLog nTrain batchSize epochs batchesPerEpoch).2 =
      (List.range' 1 (epochs * batchesPerEpoch)).map
        (fun s => (s, evaluationRoundTriggered nTrain batchSize s)) := by
  unfold trainingRunLog
  rw [epochIter_eq]
  refine ⟨by omega, ?_⟩
  norm_num

end Spec2Proof
